import Mathlib

/-!
Verification development for the IoT room-selection decision engine
(repository `IOT_room_selection`).

The engine under verification is the JavaScript ranking core:
`src/frontend/src/api/mockApi.js` (score mapping, group scores, usability
score, ranking) and `src/frontend/src/utils/ahpCalculations.js` (comparison
matrix construction and geometric-mean weight derivation).

Modelling conventions:
- JS numbers are modelled as `ℚ` for the scoring pipeline (all operations
  used there are field operations and min/max) and as `ℝ` for the weight
  calculator (which takes an n-th root via `Math.pow`).
- A possibly-missing JS value (`undefined`/`null`) is an `Option ℚ`.
- JS truthiness tests on numbers (`if (x)`, `x ? a : b`) are modelled by
  `truthy : Option ℚ → Bool`: a number is truthy when present and nonzero.
- Where a branch divides by zero, JS produces an IEEE infinity rather than
  an error; the embedding makes the resulting finite value explicit at the
  division site (see `scoreCriterion`).
-/

namespace RoomSelection

/-- A record of one candidate room, mirroring the fields of the objects in
`aggregated_rooms.json` that the ranking code reads.  Sensor readings may be
absent, so they are `Option ℚ`. -/
structure Room where
  room_id : String
  name : String
  temperature : Option ℚ
  humidity : Option ℚ
  noise : Option ℚ
  light : Option ℚ
  co2 : Option ℚ
  air_quality : Option ℚ
  voc : Option ℚ
  pm25 : Option ℚ
  pm10 : Option ℚ
  seating_capacity : Option ℚ
  has_projector : Bool
  computers : Option ℚ
  has_robots : Bool
deriving DecidableEq

/-- A preferred range `{ min, max }` as found in the user profile objects. -/
structure RangePref where
  min : ℚ
  max : ℚ
deriving DecidableEq

/-- The `profile_adjustments` object: per-criterion preferred ranges, each
possibly absent (the code substitutes defaults with `||`). -/
structure Profile where
  temperature : Option RangePref
  humidity : Option RangePref
  noise : Option RangePref
  light : Option RangePref
  co2 : Option RangePref
  voc : Option RangePref
  pm25 : Option RangePref
  pm10 : Option RangePref
deriving DecidableEq

/-- The `EU_STANDARDS` constant object.  Its defining module
(`src/frontend/src/constants/euStandards.js`) is not under `src/`, so the
absolute ranges are kept as an explicit parameter of the scoring functions;
no claim below depends on the concrete numbers. -/
structure EUStandards where
  temperature : RangePref
  humidity : RangePref
  noise : RangePref
  light : RangePref
  co2 : RangePref
  airQuality : RangePref
  voc : RangePref
  pm25 : RangePref
  pm10 : RangePref
deriving DecidableEq

/-- JS truthiness of a possibly-missing number: `undefined`, `null` and `0`
are falsy, every other number is truthy. -/
def truthy : Option ℚ → Bool
  | none => false
  | some v => decide (v ≠ 0)

/-- Shallow embedding of `scoreCriterion` (mockApi.js, lines 13-31).

The JS code is
```
if (value === undefined || value === null) return 0
if (value >= userMin && value <= userMax) return 1.0
if (value < userMin) {
  const range = userMin - absoluteMin
  const distance = userMin - value
  return Math.max(0, 1 - (distance / range) * 0.7)
} else {
  const range = absoluteMax - userMax
  const distance = value - userMax
  return Math.max(0, 1 - (distance / range) * 0.7)
}
```
In the two decay branches `distance` is strictly positive, so when
`range = 0` the IEEE quotient is `+Infinity`, `1 - Infinity * 0.7 = -Infinity`
and `Math.max 0 (-Infinity) = 0`; the embedding returns `0` at that point.
For `range ≠ 0` the JS arithmetic is exact field arithmetic on the model. -/
def scoreCriterion (value : Option ℚ) (userMin userMax absoluteMin absoluteMax : ℚ) : ℚ :=
  match value with
  | none => 0
  | some v =>
    if userMin ≤ v ∧ v ≤ userMax then 1
    else if v < userMin then
      if userMin - absoluteMin = 0 then 0
      else max 0 (1 - (userMin - v) / (userMin - absoluteMin) * (7 / 10))
    else
      if absoluteMax - userMax = 0 then 0
      else max 0 (1 - (v - userMax) / (absoluteMax - userMax) * (7 / 10))

example : scoreCriterion (some 21) 19 22 15 30 = 1 := by
  norm_num [scoreCriterion]

example : scoreCriterion (some 23) 19 22 15 30 = 1 - (1 / 8) * (7 / 10) := by
  norm_num [scoreCriterion]

/-- C1 counterexample: the claim quantifies over every absolute range, but when
the absolute range does not enclose the preferred range the score escapes
`[0,1]`.  With preferred range `[10,20]`, absolute range `[20,30]` and value
`5`, the low-side denominator is `10 - 20 = -10` and the code returns
`27/20 = 1.35 > 1`. -/
theorem scoreCriterion_not_always_unit_interval :
    scoreCriterion (some 5) 10 20 20 30 = 27 / 20 ∧ ¬ (27 / 20 : ℚ) ≤ 1 := by
  norm_num [scoreCriterion]

/-- C1 (amended): `scoreCriterion` returns 0 on a missing value, exactly 1 on a
value inside `[userMin, userMax]`, and the capped linear decay
`max 0 (1 - (distance / range) * 0.7)` on either side whenever that side has a
nonzero denominator (a zero denominator yields score 0, through the IEEE
division by zero); and, provided the absolute range encloses the preferred
range (`absMin ≤ userMin` and `userMax ≤ absMax`), the result always lies in
`[0,1]`. -/
theorem scoreCriterion_formula_and_range (uMin uMax aMin aMax : ℚ)
    (huser : uMin ≤ uMax) (hlo : aMin ≤ uMin) (hhi : uMax ≤ aMax) :
    scoreCriterion none uMin uMax aMin aMax = 0 ∧
    (∀ v : ℚ, uMin ≤ v → v ≤ uMax → scoreCriterion (some v) uMin uMax aMin aMax = 1) ∧
    (∀ v : ℚ, v < uMin → uMin - aMin ≠ 0 →
      scoreCriterion (some v) uMin uMax aMin aMax
        = max 0 (1 - (uMin - v) / (uMin - aMin) * (7 / 10))) ∧
    (∀ v : ℚ, uMax < v → aMax - uMax ≠ 0 →
      scoreCriterion (some v) uMin uMax aMin aMax
        = max 0 (1 - (v - uMax) / (aMax - uMax) * (7 / 10))) ∧
    (∀ value : Option ℚ, 0 ≤ scoreCriterion value uMin uMax aMin aMax ∧
      scoreCriterion value uMin uMax aMin aMax ≤ 1) := by
  refine ⟨rfl, ?_, ?_, ?_, ?_⟩
  · intro v h1 h2
    simp only [scoreCriterion]
    rw [if_pos ⟨h1, h2⟩]
  · intro v hv hr
    have hnot : ¬ (uMin ≤ v ∧ v ≤ uMax) := fun h => absurd hv (not_lt.mpr h.1)
    simp only [scoreCriterion]
    rw [if_neg hnot, if_pos hv, if_neg hr]
  · intro v hv hr
    have hnot : ¬ (uMin ≤ v ∧ v ≤ uMax) := fun h => absurd hv (not_lt.mpr h.2)
    have hnlt : ¬ v < uMin := not_lt.mpr (le_of_lt (lt_of_le_of_lt huser hv))
    simp only [scoreCriterion]
    rw [if_neg hnot, if_neg hnlt, if_neg hr]
  · intro value
    match value with
    | none => exact ⟨le_refl 0, by norm_num [scoreCriterion]⟩
    | some v =>
      simp only [scoreCriterion]
      split_ifs with h1 h2 h3 h4
      · norm_num
      · norm_num
      · constructor
        · exact le_max_left 0 _
        · have hrpos : 0 < uMin - aMin := lt_of_le_of_ne (by linarith) (Ne.symm h3)
          have hdpos : 0 < uMin - v := by linarith
          have : 0 ≤ (uMin - v) / (uMin - aMin) * (7 / 10) :=
            mul_nonneg (le_of_lt (div_pos hdpos hrpos)) (by norm_num)
          exact max_le (by norm_num) (by linarith)
      · norm_num
      · constructor
        · exact le_max_left 0 _
        · have hle : uMin ≤ v := not_lt.mp h2
          have hgt : uMax < v := by
            rcases not_and_or.mp h1 with h | h
            · exact absurd hle h
            · exact not_le.mp h
          have hrpos : 0 < aMax - uMax := lt_of_le_of_ne (by linarith) (Ne.symm h4)
          have hdpos : 0 < v - uMax := by linarith
          have : 0 ≤ (v - uMax) / (aMax - uMax) * (7 / 10) :=
            mul_nonneg (le_of_lt (div_pos hdpos hrpos)) (by norm_num)
          exact max_le (by norm_num) (by linarith)

/-- Witness for `scoreCriterion_formula_and_range` at the concrete
configuration preferred `[19,22]`, absolute `[15,30]`, value `23`. -/
theorem scoreCriterion_formula_and_range_witness :
    scoreCriterion (some 23) 19 22 15 30
      = max 0 (1 - ((23 : ℚ) - 22) / (30 - 22) * (7 / 10)) ∧
    0 ≤ scoreCriterion (some 23) 19 22 15 30 ∧
    scoreCriterion (some 23) 19 22 15 30 ≤ 1 := by
  have h := scoreCriterion_formula_and_range 19 22 15 30
    (by norm_num) (by norm_num) (by norm_num)
  exact ⟨h.2.2.2.1 23 (by norm_num) (by norm_num), h.2.2.2.2 (some 23)⟩

/-- C7 counterexample: with the degenerate configuration
`userMin = absoluteMin = 10` (zero low-side denominator) and preferred range
`[10,20]`, the value `21` is outside the preferred range yet scores `93/100`,
not the minimum score 0: the degenerate configuration does not make every
deviation yield the minimum score. -/
theorem scoreCriterion_degenerate_cex :
    scoreCriterion (some 21) 10 20 10 30 = 93 / 100 ∧ (93 / 100 : ℚ) ≠ 0 := by
  norm_num [scoreCriterion]

/-- C7 (amended): the code contains no epsilon clamp on the denominator; it
performs the division by zero, which in JS IEEE arithmetic produces an
infinite quotient that `Math.max` collapses to the minimum score 0.  Thus a
value deviating on a degenerate side (below `userMin` when
`userMin = absoluteMin`, above `userMax` when `userMax = absoluteMax`) scores
0, while deviations on a non-degenerate side score by the usual decay. -/
theorem scoreCriterion_degenerate (uMin uMax aMin aMax : ℚ) (huser : uMin ≤ uMax) :
    (∀ v : ℚ, v < uMin → scoreCriterion (some v) uMin uMax uMin aMax = 0) ∧
    (∀ v : ℚ, uMax < v → scoreCriterion (some v) uMin uMax aMin uMax = 0) := by
  constructor
  · intro v hv
    have hnot : ¬ (uMin ≤ v ∧ v ≤ uMax) := fun h => absurd hv (not_lt.mpr h.1)
    simp only [scoreCriterion]
    rw [if_neg hnot, if_pos hv, if_pos (by ring)]
  · intro v hv
    have hnot : ¬ (uMin ≤ v ∧ v ≤ uMax) := fun h => absurd hv (not_lt.mpr h.2)
    have hnlt : ¬ v < uMin := not_lt.mpr (le_of_lt (lt_of_le_of_lt huser hv))
    simp only [scoreCriterion]
    rw [if_neg hnot, if_neg hnlt, if_pos (by ring)]

/-- Witness for `scoreCriterion_degenerate` with preferred range `[10,20]`,
degenerate low side at value 5 and degenerate high side at value 25. -/
theorem scoreCriterion_degenerate_witness :
    scoreCriterion (some 5) 10 20 10 30 = 0 ∧
    scoreCriterion (some 25) 10 20 0 20 = 0 :=
  ⟨(scoreCriterion_degenerate 10 20 0 30 (by norm_num)).1 5 (by norm_num),
   (scoreCriterion_degenerate 10 20 0 30 (by norm_num)).2 25 (by norm_num)⟩

/-- Leaf score for temperature inside `calculateComfortScore` (mockApi.js,
lines 42-48): the temperature reading is passed to `scoreCriterion` directly,
with profile default `{min: 20, max: 24}`. -/
def tempScore (eu : EUStandards) (profile : Profile) (room : Room) : ℚ :=
  scoreCriterion room.temperature (profile.temperature.getD ⟨20, 24⟩).min
    (profile.temperature.getD ⟨20, 24⟩).max eu.temperature.min eu.temperature.max

/-- Leaf score for humidity (mockApi.js, lines 50-56); profile default
`{min: 40, max: 60}`. -/
def humidScore (eu : EUStandards) (profile : Profile) (room : Room) : ℚ :=
  scoreCriterion room.humidity (profile.humidity.getD ⟨40, 60⟩).min
    (profile.humidity.getD ⟨40, 60⟩).max eu.humidity.min eu.humidity.max

/-- Leaf score for noise (mockApi.js, lines 58-66): guarded by JS truthiness
(`room.noise ? ... : 0.8`), so a missing (or zero) reading yields the default
`0.8`, not `scoreCriterion`; profile default `{min: 30, max: 35}`. -/
def noiseScore (eu : EUStandards) (profile : Profile) (room : Room) : ℚ :=
  if truthy room.noise then
    scoreCriterion room.noise (profile.noise.getD ⟨30, 35⟩).min
      (profile.noise.getD ⟨30, 35⟩).max eu.noise.min eu.noise.max
  else 4 / 5

/-- Leaf score for light (mockApi.js, lines 68-76): truthiness-guarded with
default `0.8`; profile default `{min: 300, max: 500}`. -/
def lightScore (eu : EUStandards) (profile : Profile) (room : Room) : ℚ :=
  if truthy room.light then
    scoreCriterion room.light (profile.light.getD ⟨300, 500⟩).min
      (profile.light.getD ⟨300, 500⟩).max eu.light.min eu.light.max
  else 4 / 5

/-- Shallow embedding of `calculateComfortScore` (mockApi.js, lines 36-80):
weighted sum of the four comfort leaf scores with weights
`0.35, 0.25, 0.2, 0.2`. -/
def calculateComfortScore (eu : EUStandards) (profile : Profile) (room : Room) : ℚ :=
  tempScore eu profile room * (35 / 100) + humidScore eu profile room * (25 / 100)
    + noiseScore eu profile room * (2 / 10) + lightScore eu profile room * (2 / 10)

/-- Leaf score for CO2 (mockApi.js, lines 91-97): passed to `scoreCriterion`
directly; profile default `{min: 400, max: 800}`. -/
def co2Score (eu : EUStandards) (profile : Profile) (room : Room) : ℚ :=
  scoreCriterion room.co2 (profile.co2.getD ⟨400, 800⟩).min
    (profile.co2.getD ⟨400, 800⟩).max eu.co2.min eu.co2.max

/-- Leaf score for the air-quality index (mockApi.js, lines 99-107):
truthiness-guarded with default `0.8`; the user range is hard-coded
`[0, 50]`. -/
def aqScore (eu : EUStandards) (room : Room) : ℚ :=
  if truthy room.air_quality then
    scoreCriterion room.air_quality 0 50 eu.airQuality.min eu.airQuality.max
  else 4 / 5

/-- Leaf score for VOC (mockApi.js, lines 109-117): truthiness-guarded with
default `0.8`; profile default `{min: 0, max: 200}`. -/
def vocScore (eu : EUStandards) (profile : Profile) (room : Room) : ℚ :=
  if truthy room.voc then
    scoreCriterion room.voc (profile.voc.getD ⟨0, 200⟩).min
      (profile.voc.getD ⟨0, 200⟩).max eu.voc.min eu.voc.max
  else 4 / 5

/-- Leaf score for PM2.5 (mockApi.js, lines 119-127): truthiness-guarded with
default `0.8`; profile default `{min: 0, max: 15}`. -/
def pm25Score (eu : EUStandards) (profile : Profile) (room : Room) : ℚ :=
  if truthy room.pm25 then
    scoreCriterion room.pm25 (profile.pm25.getD ⟨0, 15⟩).min
      (profile.pm25.getD ⟨0, 15⟩).max eu.pm25.min eu.pm25.max
  else 4 / 5

/-- Leaf score for PM10 (mockApi.js, lines 129-137): truthiness-guarded with
default `0.8`; profile default `{min: 0, max: 45}`. -/
def pm10Score (eu : EUStandards) (profile : Profile) (room : Room) : ℚ :=
  if truthy room.pm10 then
    scoreCriterion room.pm10 (profile.pm10.getD ⟨0, 45⟩).min
      (profile.pm10.getD ⟨0, 45⟩).max eu.pm10.min eu.pm10.max
  else 4 / 5

/-- Shallow embedding of `calculateHealthScore` (mockApi.js, lines 85-141):
weighted sum of the five health leaf scores with weights
`0.4, 0.2, 0.15, 0.15, 0.1`. -/
def calculateHealthScore (eu : EUStandards) (profile : Profile) (room : Room) : ℚ :=
  co2Score eu profile room * (4 / 10) + aqScore eu room * (2 / 10)
    + vocScore eu profile room * (15 / 100) + pm25Score eu profile room * (15 / 100)
    + pm10Score eu profile room * (1 / 10)

/-- Running value of `score` in `calculateUsabilityScore` (mockApi.js,
lines 146-166) after the projector step: base `0.5`, plus `0.2` for a
projector. -/
def usabilityAfterProjector (room : Room) : ℚ :=
  if room.has_projector then 1 / 2 + 2 / 10 else 1 / 2

/-- Running usability score after the computers step: `+ min(0.3, computers/100)`
when `room.computers > 0` (false in JS when the field is absent). -/
def usabilityAfterComputers (room : Room) : ℚ :=
  match room.computers with
  | some c => if 0 < c then usabilityAfterProjector room + min (3 / 10) (c / 100)
              else usabilityAfterProjector room
  | none => usabilityAfterProjector room

/-- Running usability score after the robots step: `+ 0.15` when
`room.has_robots`. -/
def usabilityAfterRobots (room : Room) : ℚ :=
  if room.has_robots then usabilityAfterComputers room + 15 / 100
  else usabilityAfterComputers room

/-- Running usability score after the seating step: `+ 0.1` when
`room.seating_capacity >= 30` (false in JS when the field is absent). -/
def usabilityAfterSeating (room : Room) : ℚ :=
  match room.seating_capacity with
  | some s => if 30 ≤ s then usabilityAfterRobots room + 1 / 10
              else usabilityAfterRobots room
  | none => usabilityAfterRobots room

/-- Shallow embedding of `calculateUsabilityScore` (mockApi.js, lines 146-166):
the sequence of `score += ...` steps followed by the cap `Math.min(1.0, score)`. -/
def calculateUsabilityScore (room : Room) : ℚ :=
  min 1 (usabilityAfterSeating room)

/-- A profile with no adjustments: every per-criterion range is absent, so the
code defaults apply. -/
def emptyProfile : Profile :=
  ⟨none, none, none, none, none, none, none, none⟩

/-- A candidate with no sensor readings and no facilities, used to instantiate
witnesses. -/
def roomNoReadings : Room :=
  ⟨"r0", "Room 0", none, none, none, none, none, none, none, none, none,
   none, false, none, false⟩

/-- An arbitrary concrete `EUStandards` record used only to instantiate
witnesses; the repository constants module is not under `src/` and no theorem
below depends on these numbers. -/
def euStd : EUStandards :=
  ⟨⟨15, 30⟩, ⟨30, 70⟩, ⟨30, 60⟩, ⟨100, 2000⟩, ⟨400, 1500⟩, ⟨0, 100⟩,
   ⟨0, 500⟩, ⟨0, 25⟩, ⟨0, 50⟩⟩

/-- C6 counterexample: an absent noise reading does not map to leaf score 0 —
the truthiness guard substitutes the default `0.8` instead, so the
missing-data rule is not uniform across leaf criteria. -/
theorem noiseScore_absent_not_zero :
    noiseScore euStd emptyProfile roomNoReadings = 4 / 5 ∧ (4 / 5 : ℚ) ≠ 0 := by
  constructor
  · rfl
  · norm_num

/-- C6 (amended): a missing sensor reading never aborts scoring (every leaf
score is a total function), but the penalty is not uniform: absent
temperature, humidity and CO2 readings reach `scoreCriterion` and score 0,
while absent (or zero, by JS falsiness) noise, light, air-quality, VOC, PM2.5
and PM10 readings are replaced by the default leaf score `0.8`. -/
theorem missing_reading_defaults (eu : EUStandards) (profile : Profile) (room : Room) :
    (room.temperature = none → tempScore eu profile room = 0) ∧
    (room.humidity = none → humidScore eu profile room = 0) ∧
    (room.co2 = none → co2Score eu profile room = 0) ∧
    (room.noise = none → noiseScore eu profile room = 4 / 5) ∧
    (room.light = none → lightScore eu profile room = 4 / 5) ∧
    (room.air_quality = none → aqScore eu room = 4 / 5) ∧
    (room.voc = none → vocScore eu profile room = 4 / 5) ∧
    (room.pm25 = none → pm25Score eu profile room = 4 / 5) ∧
    (room.pm10 = none → pm10Score eu profile room = 4 / 5) := by
  refine ⟨?_, ?_, ?_, ?_, ?_, ?_, ?_, ?_, ?_⟩ <;> intro h
  · simp [tempScore, h, scoreCriterion]
  · simp [humidScore, h, scoreCriterion]
  · simp [co2Score, h, scoreCriterion]
  · simp [noiseScore, h, truthy]
  · simp [lightScore, h, truthy]
  · simp [aqScore, h, truthy]
  · simp [vocScore, h, truthy]
  · simp [pm25Score, h, truthy]
  · simp [pm10Score, h, truthy]

/-- Witness for `missing_reading_defaults` on the candidate with no readings. -/
theorem missing_reading_defaults_witness :
    tempScore euStd emptyProfile roomNoReadings = 0 ∧
    humidScore euStd emptyProfile roomNoReadings = 0 ∧
    co2Score euStd emptyProfile roomNoReadings = 0 ∧
    noiseScore euStd emptyProfile roomNoReadings = 4 / 5 ∧
    lightScore euStd emptyProfile roomNoReadings = 4 / 5 ∧
    aqScore euStd roomNoReadings = 4 / 5 ∧
    vocScore euStd emptyProfile roomNoReadings = 4 / 5 ∧
    pm25Score euStd emptyProfile roomNoReadings = 4 / 5 ∧
    pm10Score euStd emptyProfile roomNoReadings = 4 / 5 := by
  have h := missing_reading_defaults euStd emptyProfile roomNoReadings
  exact ⟨h.1 rfl, h.2.1 rfl, h.2.2.1 rfl, h.2.2.2.1 rfl, h.2.2.2.2.1 rfl,
    h.2.2.2.2.2.1 rfl, h.2.2.2.2.2.2.1 rfl, h.2.2.2.2.2.2.2.1 rfl,
    h.2.2.2.2.2.2.2.2 rfl⟩

/-- C10: `calculateUsabilityScore` always lies in `[1/2, 1]` — the base score
is `0.5`, every facility contribution is non-negative, and the final
`Math.min` caps the result at `1`; a room with no projector, no (positive
count of) computers, no robots and fewer than 30 seats receives exactly the
base score `1/2`. -/
theorem calculateUsabilityScore_bounds (room : Room) :
    (1 / 2 ≤ calculateUsabilityScore room ∧ calculateUsabilityScore room ≤ 1) ∧
    (room.has_projector = false → room.has_robots = false →
     (∀ c : ℚ, room.computers = some c → ¬ 0 < c) →
     (∀ s : ℚ, room.seating_capacity = some s → ¬ 30 ≤ s) →
     calculateUsabilityScore room = 1 / 2) := by
  have h0 : 1 / 2 ≤ usabilityAfterProjector room := by
    unfold usabilityAfterProjector; split <;> norm_num
  have h1 : usabilityAfterProjector room ≤ usabilityAfterComputers room := by
    unfold usabilityAfterComputers
    cases hc : room.computers with
    | none => exact le_refl _
    | some c =>
      dsimp only
      by_cases hpos : 0 < c
      · rw [if_pos hpos]
        have : 0 ≤ min (3 / 10 : ℚ) (c / 100) :=
          le_min (by norm_num) (le_of_lt (by positivity))
        linarith
      · rw [if_neg hpos]
  have h2 : usabilityAfterComputers room ≤ usabilityAfterRobots room := by
    unfold usabilityAfterRobots; split <;> [linarith; exact le_refl _]
  have h3 : usabilityAfterRobots room ≤ usabilityAfterSeating room := by
    unfold usabilityAfterSeating
    cases hs : room.seating_capacity with
    | none => exact le_refl _
    | some s =>
      dsimp only
      by_cases h30 : 30 ≤ s
      · rw [if_pos h30]; linarith
      · rw [if_neg h30]
  constructor
  · constructor
    · exact le_min (by norm_num) (by linarith)
    · exact min_le_left _ _
  · intro hp hr hc hs
    have e0 : usabilityAfterProjector room = 1 / 2 := by
      unfold usabilityAfterProjector; rw [hp]; simp
    have e1 : usabilityAfterComputers room = 1 / 2 := by
      unfold usabilityAfterComputers
      cases hcc : room.computers with
      | none => exact e0
      | some c => dsimp only; rw [if_neg (hc c hcc)]; exact e0
    have e2 : usabilityAfterRobots room = 1 / 2 := by
      unfold usabilityAfterRobots; rw [hr]; simpa using e1
    have e3 : usabilityAfterSeating room = 1 / 2 := by
      unfold usabilityAfterSeating
      cases hss : room.seating_capacity with
      | none => exact e2
      | some s => dsimp only; rw [if_neg (hs s hss)]; exact e2
    unfold calculateUsabilityScore
    rw [e3]
    norm_num

/-- Witness for `calculateUsabilityScore_bounds` on the candidate with no
facilities: a bare room scores exactly the base `1/2`, inside `[1/2, 1]`. -/
theorem calculateUsabilityScore_bounds_witness :
    (1 / 2 ≤ calculateUsabilityScore roomNoReadings ∧
      calculateUsabilityScore roomNoReadings ≤ 1) ∧
    calculateUsabilityScore roomNoReadings = 1 / 2 :=
  ⟨(calculateUsabilityScore_bounds roomNoReadings).1,
   (calculateUsabilityScore_bounds roomNoReadings).2 rfl rfl
     (fun _ hc => Option.noConfusion hc) (fun _ hs => Option.noConfusion hs)⟩

/-- Key under which the judgment for the ordered pair `(a, b)` is looked up
in `buildComparisonMatrix` (ahpCalculations.js, line 22). -/
def pairKey (a b : String) : String := a ++ "-" ++ b

/-- The pair of entries `(M[i][j], M[j][i])` written by one iteration of the
loop in `buildComparisonMatrix` (ahpCalculations.js, lines 25-34) for `i < j`:
the forward key wins, else the reverse key, else both default to 1.  The JS
`if (comparisons[key])` test is truthiness, hence `truthy`; under truthiness
the lookup is `some`, so `getD 1` is the looked-up value. -/
def pairEntries (comparisons : String → Option ℚ) (key rkey : String) : ℚ × ℚ :=
  if truthy (comparisons key) then
    ((comparisons key).getD 1, 1 / (comparisons key).getD 1)
  else if truthy (comparisons rkey) then
    (1 / (comparisons rkey).getD 1, (comparisons rkey).getD 1)
  else (1, 1)

/-- Shallow embedding of `buildComparisonMatrix` (ahpCalculations.js, lines
16-39) as the cell-value function of the resulting matrix: the array starts
as all ones, and each loop iteration `(i, j)` with `i < j` overwrites exactly
the two cells `(i, j)` and `(j, i)` with `pairEntries`, so the final cell
value is determined by the position relative to the diagonal. -/
def buildComparisonMatrix (criteria : List String) (comparisons : String → Option ℚ)
    (i j : Fin criteria.length) : ℚ :=
  if i = j then 1
  else if (i : ℕ) < (j : ℕ) then
    (pairEntries comparisons (pairKey (criteria.get i) (criteria.get j))
      (pairKey (criteria.get j) (criteria.get i))).1
  else
    (pairEntries comparisons (pairKey (criteria.get j) (criteria.get i))
      (pairKey (criteria.get i) (criteria.get j))).2

/-- The two entries written for one ordered pair always multiply to 1: a
truthy looked-up value is nonzero, so `v * (1/v) = 1`, and the default pair
is `(1, 1)`. -/
theorem pairEntries_mul (comparisons : String → Option ℚ) (key rkey : String) :
    (pairEntries comparisons key rkey).1 * (pairEntries comparisons key rkey).2 = 1 := by
  unfold pairEntries
  by_cases h1 : truthy (comparisons key)
  · rw [if_pos h1]
    cases hk : comparisons key with
    | none => rw [hk] at h1; simp [truthy] at h1
    | some v =>
      rw [hk] at h1
      simp only [truthy, decide_eq_true_eq] at h1
      simp only [Option.getD_some]
      exact mul_one_div_cancel h1
  · rw [if_neg h1]
    by_cases h2 : truthy (comparisons rkey)
    · rw [if_pos h2]
      cases hk : comparisons rkey with
      | none => rw [hk] at h2; simp [truthy] at h2
      | some v =>
        rw [hk] at h2
        simp only [truthy, decide_eq_true_eq] at h2
        simp only [Option.getD_some]
        exact one_div_mul_cancel h2
    · rw [if_neg h2]; norm_num

/-- C4: for every criteria list and every judgment map with positive
magnitudes, the built matrix has unit diagonal, is reciprocal
(`M[i][j] * M[j][i] = 1` for all `i, j`), and both entries of an unsupplied
off-diagonal pair equal 1. -/
theorem buildComparisonMatrix_invariants (criteria : List String)
    (comparisons : String → Option ℚ)
    (_hpos : ∀ s v, comparisons s = some v → 0 < v) :
    (∀ i : Fin criteria.length, buildComparisonMatrix criteria comparisons i i = 1) ∧
    (∀ i j : Fin criteria.length,
      buildComparisonMatrix criteria comparisons i j
        * buildComparisonMatrix criteria comparisons j i = 1) ∧
    (∀ i j : Fin criteria.length, i ≠ j →
      comparisons (pairKey (criteria.get i) (criteria.get j)) = none →
      comparisons (pairKey (criteria.get j) (criteria.get i)) = none →
      buildComparisonMatrix criteria comparisons i j = 1) := by
  refine ⟨?_, ?_, ?_⟩
  · intro i
    unfold buildComparisonMatrix
    rw [if_pos rfl]
  · intro i j
    by_cases hij : i = j
    · subst hij
      unfold buildComparisonMatrix
      rw [if_pos rfl]
      norm_num
    · have hvne : (i : ℕ) ≠ (j : ℕ) := fun h => hij (Fin.ext h)
      have hji : ¬ j = i := fun h => hij h.symm
      by_cases hlt : (i : ℕ) < (j : ℕ)
      · have hnlt : ¬ (j : ℕ) < (i : ℕ) := by omega
        unfold buildComparisonMatrix
        rw [if_neg hij, if_pos hlt, if_neg hji, if_neg hnlt]
        exact pairEntries_mul comparisons _ _
      · have hlt' : (j : ℕ) < (i : ℕ) := by omega
        unfold buildComparisonMatrix
        rw [if_neg hij, if_neg hlt, if_neg hji, if_pos hlt']
        rw [mul_comm]
        exact pairEntries_mul comparisons _ _
  · intro i j hij hk hrk
    unfold buildComparisonMatrix
    rw [if_neg hij]
    by_cases hlt : (i : ℕ) < (j : ℕ)
    · rw [if_pos hlt]
      unfold pairEntries
      rw [hk, hrk]
      simp [truthy]
    · rw [if_neg hlt]
      unfold pairEntries
      rw [hrk, hk]
      simp [truthy]

/-- Concrete two-criteria list used to instantiate matrix-builder witnesses. -/
def critAB : List String := ["A", "B"]

/-- Concrete three-criteria list used to instantiate matrix-builder
witnesses. -/
def critABC : List String := ["A", "B", "C"]

/-- Judgment map supplying magnitude 3 for the pair `A-B` only. -/
def compAB3 : String → Option ℚ := fun s => if s = "A-B" then some 3 else none

/-- Judgment map supplying the invalid magnitude `-2` for the pair `A-B`. -/
def compABneg : String → Option ℚ := fun s => if s = "A-B" then some (-2) else none

/-- Judgment map supplying the invalid magnitude `0` for the pair `A-B`. -/
def compABzero : String → Option ℚ := fun s => if s = "A-B" then some 0 else none

/-- Witness for `buildComparisonMatrix_invariants` on criteria `[A, B, C]`
with the single judgment `A-B = 3`. -/
theorem buildComparisonMatrix_invariants_witness :
    buildComparisonMatrix critABC compAB3 ⟨0, by decide⟩ ⟨0, by decide⟩ = 1 ∧
    buildComparisonMatrix critABC compAB3 ⟨0, by decide⟩ ⟨1, by decide⟩
      * buildComparisonMatrix critABC compAB3 ⟨1, by decide⟩ ⟨0, by decide⟩ = 1 ∧
    buildComparisonMatrix critABC compAB3 ⟨1, by decide⟩ ⟨2, by decide⟩ = 1 := by
  have hpos : ∀ s v, compAB3 s = some v → 0 < v := by
    intro s v h
    unfold compAB3 at h
    by_cases hs : s = "A-B"
    · rw [if_pos hs] at h
      injection h with h'
      rw [← h']
      norm_num
    · rw [if_neg hs] at h
      exact Option.noConfusion h
  have h := buildComparisonMatrix_invariants critABC compAB3 hpos
  exact ⟨h.1 ⟨0, by decide⟩, h.2.1 ⟨0, by decide⟩ ⟨1, by decide⟩,
    h.2.2 ⟨1, by decide⟩ ⟨2, by decide⟩ (by decide) (by decide) (by decide)⟩

/-- C8 counterexample: a judgment of magnitude `-2` is not rejected with a
validation error — `buildComparisonMatrix` happily produces a matrix whose
entries are `-2` and `-1/2`. -/
theorem buildComparisonMatrix_accepts_negative :
    buildComparisonMatrix critAB compABneg ⟨0, by decide⟩ ⟨1, by decide⟩ = -2 ∧
    buildComparisonMatrix critAB compABneg ⟨1, by decide⟩ ⟨0, by decide⟩ = -(1 / 2) := by
  have h1 : compABneg (pairKey (critAB.get ⟨0, by decide⟩) (critAB.get ⟨1, by decide⟩))
      = some (-2) := by decide
  constructor
  · decide
  · unfold buildComparisonMatrix
    rw [if_neg (by decide), if_neg (by decide)]
    unfold pairEntries
    rw [h1]
    norm_num [truthy]

/-- C8 (amended): `buildComparisonMatrix` performs no magnitude validation and
always produces a matrix.  A supplied nonzero magnitude `v` for the ordered
pair `(i, j)` — negative ones included — is written as-is with reciprocal
`1/v`; a magnitude `0` is falsy in JS, so the pair is treated as unsupplied
and (when the reverse key is also not truthy) both entries default to 1. -/
theorem buildComparisonMatrix_no_validation (criteria : List String)
    (comparisons : String → Option ℚ) (i j : Fin criteria.length)
    (hij : (i : ℕ) < (j : ℕ)) (v : ℚ)
    (hv : comparisons (pairKey (criteria.get i) (criteria.get j)) = some v) :
    (v ≠ 0 → buildComparisonMatrix criteria comparisons i j = v ∧
      buildComparisonMatrix criteria comparisons j i = 1 / v) ∧
    (v = 0 → truthy (comparisons (pairKey (criteria.get j) (criteria.get i))) = false →
      buildComparisonMatrix criteria comparisons i j = 1 ∧
      buildComparisonMatrix criteria comparisons j i = 1) := by
  have hne : i ≠ j := fun h => absurd (congrArg Fin.val h) (Nat.ne_of_lt hij)
  have hji : ¬ j = i := fun h => hne h.symm
  have hnlt : ¬ (j : ℕ) < (i : ℕ) := by omega
  constructor
  · intro hv0
    have he : pairEntries comparisons (pairKey (criteria.get i) (criteria.get j))
        (pairKey (criteria.get j) (criteria.get i)) = (v, 1 / v) := by
      unfold pairEntries
      rw [hv]
      simp [truthy, hv0]
    constructor
    · unfold buildComparisonMatrix
      rw [if_neg hne, if_pos hij, he]
    · unfold buildComparisonMatrix
      rw [if_neg hji, if_neg hnlt, he]
  · intro hv0 hrf
    have he : pairEntries comparisons (pairKey (criteria.get i) (criteria.get j))
        (pairKey (criteria.get j) (criteria.get i)) = (1, 1) := by
      unfold pairEntries
      rw [hv, hv0, hrf]
      simp [truthy]
    constructor
    · unfold buildComparisonMatrix
      rw [if_neg hne, if_pos hij, he]
    · unfold buildComparisonMatrix
      rw [if_neg hji, if_neg hnlt, he]

/-- Witness for `buildComparisonMatrix_no_validation` on criteria `[A, B]`:
the judgment `A-B = -2` yields entries `-2` and `1/(-2)`, and the judgment
`A-B = 0` yields the default entries `1`. -/
theorem buildComparisonMatrix_no_validation_witness :
    (buildComparisonMatrix critAB compABneg ⟨0, by decide⟩ ⟨1, by decide⟩ = -2 ∧
     buildComparisonMatrix critAB compABneg ⟨1, by decide⟩ ⟨0, by decide⟩ = 1 / (-2)) ∧
    (buildComparisonMatrix critAB compABzero ⟨0, by decide⟩ ⟨1, by decide⟩ = 1 ∧
     buildComparisonMatrix critAB compABzero ⟨1, by decide⟩ ⟨0, by decide⟩ = 1) :=
  ⟨(buildComparisonMatrix_no_validation critAB compABneg ⟨0, by decide⟩ ⟨1, by decide⟩
      (by decide) (-2) (by decide)).1 (by norm_num),
   (buildComparisonMatrix_no_validation critAB compABzero ⟨0, by decide⟩ ⟨1, by decide⟩
      (by decide) 0 (by decide)).2 rfl (by decide)⟩

/-- Modelled from the spec: the Hard-Constraint Filter (spec section 4.1) is
implemented in the backend ranking service, which is not under `src/` —
`src/` holds only its callers (`apiClient.evaluateRooms` forwards
`facility_requirements.min_seating` to `POST /api/v1/rank`) and the shell
test script exercising the deployed endpoint.  Per the spec, for a minimum
numeric capacity requirement a candidate is excluded if its value is
strictly less than the required minimum, an absent value being treated as 0;
an unspecified requirement (null/absent) imposes no constraint. -/
def passesMinCapacity (required : Option ℚ) (value : Option ℚ) : Bool :=
  match required with
  | none => true
  | some m => !(decide (value.getD 0 < m))

/-- Modelled from the spec: hard-constraint filtering of the candidate list
by the `min_seating` requirement against each candidate seating capacity. -/
def filterByMinSeating (required : Option ℚ) (rooms : List Room) : List Room :=
  rooms.filter (fun r => passesMinCapacity required r.seating_capacity)

/-- A candidate carrying only a seating capacity, used for the concrete
filtering scenario. -/
def roomWithSeating (id : String) (s : ℚ) : Room :=
  ⟨id, id, none, none, none, none, none, none, none, none, none,
   some s, false, none, false⟩

/-- The candidate set of the concrete scenario: seating capacities
`{62, 45, 30, 20, 15}` (the rooms of the repository test script). -/
def seatingCandidates : List Room :=
  [roomWithSeating "Room_1" 62, roomWithSeating "Room_2" 45,
   roomWithSeating "Room_3" 30, roomWithSeating "Room_4" 20,
   roomWithSeating "Room_5" 15]

/-- C2: the hard-constraint filter keeps exactly the candidates whose seating
capacity (absent treated as 0) is not strictly below the required minimum,
and on the concrete scenario `min_seating = 50` against capacities
`{62, 45, 30, 20, 15}` exactly the 62-seat candidate survives. -/
theorem filterByMinSeating_spec :
    (∀ (m : ℚ) (rooms : List Room) (r : Room),
      r ∈ filterByMinSeating (some m) rooms ↔
        r ∈ rooms ∧ ¬ r.seating_capacity.getD 0 < m) ∧
    filterByMinSeating (some 50) seatingCandidates = [roomWithSeating "Room_1" 62] := by
  constructor
  · intro m rooms r
    simp [filterByMinSeating, passesMinCapacity, List.mem_filter]
  · decide

/-- The `weights` object used by `evaluateRooms` (mockApi.js, lines 184-188):
the three top-level group weights.  The `|| {Comfort: 0.40, ...}` default for
an absent object is resolved by the caller of the model. -/
structure Weights where
  Comfort : ℚ
  Health : ℚ
  Usability : ℚ

/-- A room together with its computed scores, as produced by the `map` step
of `evaluateRooms` (mockApi.js, lines 196-214): the spread `{...room}` plus
the four score fields. -/
structure ScoredRoom where
  room : Room
  comfort_score : ℚ
  health_score : ℚ
  usability_score : ℚ
  final_score : ℚ

/-- The scoring step of `evaluateRooms` for one room: group scores and the
weighted final score `comfort * w.Comfort + health * w.Health +
usability * w.Usability`. -/
def scoreRoom (eu : EUStandards) (profile : Profile) (w : Weights) (room : Room) :
    ScoredRoom :=
  { room := room
    comfort_score := calculateComfortScore eu profile room
    health_score := calculateHealthScore eu profile room
    usability_score := calculateUsabilityScore room
    final_score := calculateComfortScore eu profile room * w.Comfort
      + calculateHealthScore eu profile room * w.Health
      + calculateUsabilityScore room * w.Usability }

/-- The comparator of the sort step (mockApi.js, line 218): the JS comparator
`(a, b) => b.final_score - a.final_score` orders `a` no later than `b`
exactly when the comparator value is `≤ 0`, i.e. when
`b.final_score ≤ a.final_score` (descending by final score). -/
def scoreLe (a b : ScoredRoom) : Bool := decide (b.final_score ≤ a.final_score)

/-- The sort step of `evaluateRooms`: `Array.prototype.sort` is specified to
be stable (ECMAScript 2019), so it is modelled by the stable
`List.mergeSort` with the descending-score comparator. -/
def sortScored (scored : List ScoredRoom) : List ScoredRoom :=
  scored.mergeSort scoreLe

/-- The same stable sort with every element tagged by its input position,
used to state the stability property; by `List.mergeSort_enum`, dropping the
tags recovers `sortScored`. -/
def sortScoredIdx (scored : List ScoredRoom) : List (ℕ × ScoredRoom) :=
  scored.enum.mergeSort (List.enumLE scoreLe)

/-- One entry of the final ranking (mockApi.js, lines 219-240): `rank` is the
1-based sorted position, and the remaining fields are copied from the scored
room. -/
structure RankedRoom where
  rank : ℕ
  room_id : String
  room_name : String
  final_score : ℚ
  comfort_score : ℚ
  health_score : ℚ
  usability_score : ℚ
  temperature : Option ℚ
  co2 : Option ℚ
  humidity : Option ℚ
  air_quality : Option ℚ
  voc : Option ℚ
  pm25 : Option ℚ
  pm10 : Option ℚ
  noise : Option ℚ
  light : Option ℚ
  seating_capacity : Option ℚ
  has_projector : Bool
  computers : Option ℚ
  has_robots : Bool

/-- Field projection of the ranking map step (mockApi.js, lines 219-240). -/
def toRanked (rank : ℕ) (s : ScoredRoom) : RankedRoom :=
  { rank := rank
    room_id := s.room.room_id
    room_name := s.room.name
    final_score := s.final_score
    comfort_score := s.comfort_score
    health_score := s.health_score
    usability_score := s.usability_score
    temperature := s.room.temperature
    co2 := s.room.co2
    humidity := s.room.humidity
    air_quality := s.room.air_quality
    voc := s.room.voc
    pm25 := s.room.pm25
    pm10 := s.room.pm10
    noise := s.room.noise
    light := s.room.light
    seating_capacity := s.room.seating_capacity
    has_projector := s.room.has_projector
    computers := s.room.computers
    has_robots := s.room.has_robots }

/-- Shallow embedding of the ranking body of `evaluateRooms` (mockApi.js,
lines 196-240): score every room, sort descending by final score with the
stable sort, then assign 1-based ranks by sorted position.  The surrounding
Promise/setTimeout plumbing, logging, and the default substitution for an
absent `preferences.weights` are outside the ranking computation. -/
def evaluateRooms (eu : EUStandards) (profile : Profile) (w : Weights)
    (rooms : List Room) : List RankedRoom :=
  ((sortScored (rooms.map (scoreRoom eu profile w))).enum).map
    (fun p => toRanked (p.1 + 1) p.2)

/-- The descending-score comparator is transitive. -/
theorem scoreLe_trans (a b c : ScoredRoom) :
    scoreLe a b → scoreLe b c → scoreLe a c := by
  simp only [scoreLe, decide_eq_true_eq]
  intro hab hbc
  exact le_trans hbc hab

/-- The descending-score comparator is total. -/
theorem scoreLe_total (a b : ScoredRoom) : scoreLe a b || scoreLe b a := by
  simp only [scoreLe, Bool.or_eq_true, decide_eq_true_eq]
  exact le_total _ _

/-- The default top-level weights of `evaluateRooms`
(`{Comfort: 0.40, Health: 0.35, Usability: 0.25}`). -/
def wDefault : Weights := ⟨40 / 100, 35 / 100, 25 / 100⟩

/-- C9: the ranking is a stable descending sort with 1-based ranks — dropping
the position tags of the tagged sort recovers the sort actually run
(`List.mergeSort_enum`); the tagged sort is a permutation of the tagged
input; scores are non-increasing along the output; two entries with equal
final score keep their input order (tags strictly increase); and the entry
at sorted position `r` carries rank `r + 1`. -/
theorem evaluateRooms_stable_ranking (eu : EUStandards) (profile : Profile)
    (w : Weights) (rooms : List Room) (scored : List ScoredRoom) :
    (sortScored scored = (sortScoredIdx scored).map Prod.snd) ∧
    ((sortScoredIdx scored).Perm scored.enum) ∧
    (∀ p q (hp : p < (sortScored scored).length)
      (hq : q < (sortScored scored).length), p < q →
      ((sortScored scored).get ⟨q, hq⟩).final_score
        ≤ ((sortScored scored).get ⟨p, hp⟩).final_score) ∧
    (∀ p q (hp : p < (sortScoredIdx scored).length)
      (hq : q < (sortScoredIdx scored).length), p < q →
      ((sortScoredIdx scored).get ⟨p, hp⟩).2.final_score
        = ((sortScoredIdx scored).get ⟨q, hq⟩).2.final_score →
      ((sortScoredIdx scored).get ⟨p, hp⟩).1
        < ((sortScoredIdx scored).get ⟨q, hq⟩).1) ∧
    (∀ r (hr : r < (evaluateRooms eu profile w rooms).length),
      ((evaluateRooms eu profile w rooms).get ⟨r, hr⟩).rank = r + 1) := by
  refine ⟨?_, ?_, ?_, ?_, ?_⟩
  · unfold sortScored sortScoredIdx
    exact (List.mergeSort_enum).symm
  · exact List.mergeSort_perm scored.enum _
  · intro p q hp hq hpq
    have hpw := List.sorted_mergeSort scoreLe_trans scoreLe_total scored
    rw [List.pairwise_iff_getElem] at hpw
    have h := hpw p q (by simpa [sortScored] using hp) (by simpa [sortScored] using hq) hpq
    simp only [scoreLe, decide_eq_true_eq] at h
    simpa [sortScored, List.get_eq_getElem] using h
  · intro p q hp hq hpq heq
    have hpw := List.sorted_mergeSort (List.enumLE_trans scoreLe_trans)
      (List.enumLE_total scoreLe_total) scored.enum
    rw [List.pairwise_iff_getElem] at hpw
    have hp' : p < (scored.enum.mergeSort (List.enumLE scoreLe)).length := by
      simpa [sortScoredIdx] using hp
    have hq' : q < (scored.enum.mergeSort (List.enumLE scoreLe)).length := by
      simpa [sortScoredIdx] using hq
    have h := hpw p q hp' hq' hpq
    have hnd : ((sortScoredIdx scored).map Prod.fst).Nodup := by
      have hperm : ((sortScoredIdx scored).map Prod.fst).Perm
          (scored.enum.map Prod.fst) :=
        (List.mergeSort_perm scored.enum _).map Prod.fst
      rw [hperm.nodup_iff]
      exact List.nodup_enum_map_fst scored
    have hpne : (sortScoredIdx scored).Pairwise (fun a b => a.1 ≠ b.1) :=
      List.pairwise_map.mp hnd
    rw [List.pairwise_iff_getElem] at hpne
    have hne := hpne p q hp hq hpq
    simp only [List.get_eq_getElem] at heq ⊢
    simp only [sortScoredIdx] at heq hne ⊢
    simp only [List.enumLE, scoreLe] at h
    rw [if_pos (decide_eq_true (le_of_eq heq.symm)),
      if_pos (decide_eq_true (le_of_eq heq))] at h
    exact lt_of_le_of_ne (of_decide_eq_true h) hne
  · intro r hr
    simp only [evaluateRooms, List.get_eq_getElem, List.getElem_map, List.getElem_enum]
    rfl

/-- Two scored rooms with the same final score `5`, used to exercise the
tie-breaking (stability) property. -/
def tieA : ScoredRoom := ⟨roomNoReadings, 0, 0, 0, 5⟩

/-- Second scored room of the tie pair. -/
def tieB : ScoredRoom := ⟨roomWithSeating "B" 10, 0, 0, 0, 5⟩

/-- Every element of the sorted tagged tie pair has final score 5 (via the
permutation with the input, without evaluating the sort). -/
theorem sortScoredIdx_tie_all_five :
    ∀ x ∈ sortScoredIdx [tieA, tieB], x.2.final_score = 5 := by
  intro x hx
  have hx' : x ∈ ([tieA, tieB] : List ScoredRoom).enum := by
    simpa [sortScoredIdx, List.mem_mergeSort] using hx
  have hm : x = (0, tieA) ∨ x = (1, tieB) := by
    simpa [List.enum, List.enumFrom] using hx'
  rcases hm with h | h
  · simp [h, tieA]
  · simp [h, tieB]

/-- Witness for `evaluateRooms_stable_ranking`: on the equal-score pair the
input order is preserved in the tagged sort, scores are non-increasing, and
on a singleton room list the first ranking entry has rank 1. -/
theorem evaluateRooms_stable_ranking_witness :
    ((sortScoredIdx [tieA, tieB]).get ⟨0, by simp [sortScoredIdx]⟩).1
      < ((sortScoredIdx [tieA, tieB]).get ⟨1, by simp [sortScoredIdx]⟩).1 ∧
    ((sortScored [tieA, tieB]).get ⟨1, by simp [sortScored]⟩).final_score
      ≤ ((sortScored [tieA, tieB]).get ⟨0, by simp [sortScored]⟩).final_score ∧
    ((evaluateRooms euStd emptyProfile wDefault [roomNoReadings]).get
      ⟨0, by simp [evaluateRooms, sortScored]⟩).rank = 1 := by
  have key := evaluateRooms_stable_ranking euStd emptyProfile wDefault
    [roomNoReadings] [tieA, tieB]
  refine ⟨?_, ?_, ?_⟩
  · apply key.2.2.2.1 0 1 (by simp [sortScoredIdx]) (by simp [sortScoredIdx])
      (by norm_num)
    rw [sortScoredIdx_tie_all_five _ (List.get_mem _ _ _),
      sortScoredIdx_tie_all_five _ (List.get_mem _ _ _)]
  · exact key.2.2.1 0 1 (by simp [sortScored]) (by simp [sortScored]) (by norm_num)
  · exact key.2.2.2.2 0 (by simp [evaluateRooms, sortScored])

/-- Geometric-mean row weight of `calculateWeights` (ahpCalculations.js,
lines 45-51): the product of the row entries raised to `1/n` via `Math.pow`,
modelled by the real power.  The real n-th root is not computable exactly,
hence `noncomputable`; the theorems below are the interface. -/
noncomputable def geomRowWeight {n : ℕ} (M : Fin n → Fin n → ℝ) (i : Fin n) : ℝ :=
  (∏ j, M i j) ^ ((1 : ℝ) / n)

/-- Shallow embedding of `calculateWeights` (ahpCalculations.js, lines
41-55): geometric-mean row weights normalized by their sum. -/
noncomputable def calculateWeights {n : ℕ} (M : Fin n → Fin n → ℝ) (i : Fin n) : ℝ :=
  geomRowWeight M i / ∑ k, geomRowWeight M k

/-- Modelled from the spec: the normalized column-sum weight method (spec
section 4.3) is implemented in the backend, which is not under `src/`; per
the spec it normalizes each column to sum 1, then averages across rows. -/
noncomputable def normalizedColumnSum {n : ℕ} (M : Fin n → Fin n → ℝ) (i : Fin n) : ℝ :=
  (∑ j, M i j / ∑ k, M k j) / n

/-- Modelled from the spec: the principal-eigenvector weight method (spec
section 4.3) is implemented in the backend, which is not under `src/`; per
the spec it returns the eigenvector associated with the dominant eigenvalue,
normalized to sum 1.  Its output is characterized by this predicate: a
positive vector of sum 1 satisfying the eigenvector equation for `lam`. -/
def isPrincipalEigenvectorResult {n : ℕ} (M : Fin n → Fin n → ℝ) (lam : ℝ)
    (v : Fin n → ℝ) : Prop :=
  (∀ i, 0 < v i) ∧ (∑ i, v i) = 1 ∧ ∀ i, (∑ j, M i j * v j) = lam * v i

/-- The perfectly consistent (rank-1) comparison matrix `M[i][j] = w i / w j`
generated by a positive weight vector. -/
noncomputable def consistentMatrix {n : ℕ} (w : Fin n → ℝ) : Fin n → Fin n → ℝ :=
  fun i j => w i / w j

/-- C3: for every nonempty comparison matrix with positive entries (the data
model requires Saaty magnitudes, which are positive), the geometric-mean
weight calculator of the source — and likewise the spec-modelled column-sum
method — returns a vector of non-negative entries summing to exactly 1. -/
theorem calculateWeights_normalized {n : ℕ} (hn : 0 < n) (M : Fin n → Fin n → ℝ)
    (hpos : ∀ i j, 0 < M i j) :
    ((∀ i, 0 ≤ calculateWeights M i) ∧ (∑ i, calculateWeights M i) = 1) ∧
    ((∀ i, 0 ≤ normalizedColumnSum M i) ∧ (∑ i, normalizedColumnSum M i) = 1) := by
  have hne : Nonempty (Fin n) := ⟨⟨0, hn⟩⟩
  have hprod : ∀ i, 0 < ∏ j, M i j := fun i => Finset.prod_pos (fun j _ => hpos i j)
  have hw : ∀ i, 0 < geomRowWeight M i :=
    fun i => Real.rpow_pos_of_pos (hprod i) _
  have hsum : 0 < ∑ k, geomRowWeight M k :=
    Finset.sum_pos (fun k _ => hw k) Finset.univ_nonempty
  have hcol : ∀ j, 0 < ∑ k, M k j :=
    fun j => Finset.sum_pos (fun k _ => hpos k j) Finset.univ_nonempty
  refine ⟨⟨?_, ?_⟩, ?_, ?_⟩
  · intro i
    exact div_nonneg (hw i).le hsum.le
  · unfold calculateWeights
    rw [← Finset.sum_div]
    exact div_self hsum.ne'
  · intro i
    unfold normalizedColumnSum
    apply div_nonneg _ (Nat.cast_nonneg n)
    exact Finset.sum_nonneg fun j _ => div_nonneg (hpos i j).le (hcol j).le
  · unfold normalizedColumnSum
    rw [← Finset.sum_div]
    rw [Finset.sum_comm]
    have hinner : ∀ j, (∑ i, M i j / ∑ k, M k j) = 1 := by
      intro j
      rw [← Finset.sum_div]
      exact div_self (hcol j).ne'
    rw [Finset.sum_congr rfl (fun j _ => hinner j)]
    rw [Finset.sum_const, Finset.card_univ, Fintype.card_fin, nsmul_eq_mul, mul_one]
    exact div_self (Nat.cast_ne_zero.mpr hn.ne')

/-- Witness for `calculateWeights_normalized` at the 1x1 matrix `[[2]]`. -/
theorem calculateWeights_normalized_witness :
    (0 ≤ calculateWeights ((fun _ _ => (2 : ℝ)) : Fin 1 → Fin 1 → ℝ) 0) ∧
    (∑ i, calculateWeights ((fun _ _ => (2 : ℝ)) : Fin 1 → Fin 1 → ℝ) i) = 1 ∧
    (∑ i, normalizedColumnSum ((fun _ _ => (2 : ℝ)) : Fin 1 → Fin 1 → ℝ) i) = 1 := by
  have h := calculateWeights_normalized (by norm_num)
    ((fun _ _ => (2 : ℝ)) : Fin 1 → Fin 1 → ℝ) (fun i j => by norm_num)
  exact ⟨h.1.1 0, h.1.2, h.2.2⟩

/-- C5: on a perfectly consistent matrix `M[i][j] = w i / w j` (consistency
ratio 0) the three weight-derivation methods agree: the geometric-mean
method of the source and the spec-modelled column-sum method both return
exactly `w i / Σ w`, their pointwise difference is within `1e-6` (it is 0),
and every output admissible for the spec-modelled principal-eigenvector
method equals the same vector, with dominant eigenvalue `n`. -/
theorem consistent_matrix_methods_agree {n : ℕ} (hn : 0 < n) (w : Fin n → ℝ)
    (hw : ∀ i, 0 < w i) :
    (∀ i, calculateWeights (consistentMatrix w) i = w i / ∑ j, w j) ∧
    (∀ i, normalizedColumnSum (consistentMatrix w) i = w i / ∑ j, w j) ∧
    (∀ i, |calculateWeights (consistentMatrix w) i
      - normalizedColumnSum (consistentMatrix w) i| ≤ 1 / 1000000) ∧
    (∀ lam v, isPrincipalEigenvectorResult (consistentMatrix w) lam v →
      lam = n ∧ ∀ i, v i = w i / ∑ j, w j) := by
  have hne : Nonempty (Fin n) := ⟨⟨0, hn⟩⟩
  have hS : 0 < ∑ j, w j := Finset.sum_pos (fun j _ => hw j) Finset.univ_nonempty
  have hP : 0 < ∏ j, w j := Finset.prod_pos (fun j _ => hw j)
  have hc : 0 < (∏ j, w j) ^ ((1 : ℝ) / n) := Real.rpow_pos_of_pos hP _
  have hgeom : ∀ i, geomRowWeight (consistentMatrix w) i
      = w i / (∏ j, w j) ^ ((1 : ℝ) / n) := by
    intro i
    unfold geomRowWeight consistentMatrix
    rw [Finset.prod_div_distrib, Finset.prod_const, Finset.card_univ, Fintype.card_fin]
    rw [Real.div_rpow (pow_nonneg (hw i).le n) hP.le]
    congr 1
    rw [← Real.rpow_natCast (w i) n, ← Real.rpow_mul (hw i).le]
    rw [mul_one_div_cancel (Nat.cast_ne_zero.mpr hn.ne'), Real.rpow_one]
  have hgw : ∀ i, calculateWeights (consistentMatrix w) i = w i / ∑ j, w j := by
    intro i
    unfold calculateWeights
    rw [hgeom i, Finset.sum_congr rfl (fun k _ => hgeom k), ← Finset.sum_div]
    exact div_div_div_cancel_right₀ hc.ne' (w i) (∑ j, w j)
  have hcolsum : ∀ j, (∑ k, consistentMatrix w k j) = (∑ k, w k) / w j := by
    intro j
    unfold consistentMatrix
    rw [← Finset.sum_div]
  have hcs : ∀ i, normalizedColumnSum (consistentMatrix w) i = w i / ∑ j, w j := by
    intro i
    unfold normalizedColumnSum
    have hterm : ∀ j, consistentMatrix w i j / (∑ k, consistentMatrix w k j)
        = w i / ∑ k, w k := by
      intro j
      rw [hcolsum j]
      unfold consistentMatrix
      exact div_div_div_cancel_right₀ (hw j).ne' (w i) (∑ k, w k)
    rw [Finset.sum_congr rfl (fun j _ => hterm j)]
    rw [Finset.sum_const, Finset.card_univ, Fintype.card_fin, nsmul_eq_mul]
    rw [mul_comm, mul_div_assoc]
    rw [div_self (Nat.cast_ne_zero.mpr hn.ne'), mul_one]
  refine ⟨hgw, hcs, ?_, ?_⟩
  · intro i
    rw [hgw i, hcs i, sub_self, abs_zero]
    norm_num
  · rintro lam v ⟨hvpos, hvsum, heig⟩
    have hc0 : 0 < ∑ j, v j / w j :=
      Finset.sum_pos (fun j _ => div_pos (hvpos j) (hw j)) Finset.univ_nonempty
    have hkey : ∀ i, w i * ∑ j, v j / w j = lam * v i := by
      intro i
      rw [← heig i, Finset.mul_sum]
      refine Finset.sum_congr rfl (fun j _ => ?_)
      unfold consistentMatrix
      ring
    have hlam : (∑ j, w j) * (∑ j, v j / w j) = lam := by
      calc (∑ j, w j) * (∑ j, v j / w j)
          = ∑ i, w i * ∑ j, v j / w j := by rw [Finset.sum_mul]
        _ = ∑ i, lam * v i := Finset.sum_congr rfl (fun i _ => by rw [hkey i])
        _ = lam * ∑ i, v i := by rw [Finset.mul_sum]
        _ = lam := by rw [hvsum, mul_one]
    have hlam_pos : 0 < lam := hlam ▸ mul_pos hS hc0
    have hv : ∀ i, v i = w i * ((∑ j, v j / w j) / lam) := by
      intro i
      rw [← mul_div_assoc]
      rw [hkey i]
      rw [mul_comm, mul_div_assoc, div_self hlam_pos.ne', mul_one]
    have hstep : ∀ j : Fin n, v j / w j = (∑ k, v k / w k) / lam := by
      intro j
      rw [hv j]
      exact mul_div_cancel_left₀ _ (hw j).ne'
    have hceq : (∑ k, v k / w k) = n * ((∑ k, v k / w k) / lam) := by
      conv_lhs => rw [Finset.sum_congr rfl (fun j _ => hstep j)]
      rw [Finset.sum_const, Finset.card_univ, Fintype.card_fin, nsmul_eq_mul]
    have hmul : (∑ k, v k / w k) * lam = (∑ k, v k / w k) * n := by
      calc (∑ k, v k / w k) * lam
          = (n * ((∑ k, v k / w k) / lam)) * lam := by rw [← hceq]
        _ = n * (∑ k, v k / w k) := by
            rw [mul_assoc, div_mul_cancel₀ _ hlam_pos.ne']
        _ = (∑ k, v k / w k) * n := mul_comm _ _
    have hlamn : lam = n := mul_left_cancel₀ hc0.ne' hmul
    refine ⟨hlamn, ?_⟩
    intro i
    have hfrac : (∑ k, v k / w k) / lam = 1 / (∑ j, w j) := by
      rw [← hlam, mul_comm, ← div_div, div_self hc0.ne']
    rw [hv i, hfrac, mul_one_div]

/-- Witness for `consistent_matrix_methods_agree` at the rank-1 matrix
generated by `w = (1, 2)`: both computable methods return `1/3` at index 0,
their difference is within `1e-6`, and the normalized positive eigenvector
`(1/3, 2/3)` has eigenvalue `2 = n`. -/
theorem consistent_matrix_methods_agree_witness :
    calculateWeights (consistentMatrix ![(1 : ℝ), 2]) 0 = 1 / 3 ∧
    normalizedColumnSum (consistentMatrix ![(1 : ℝ), 2]) 0 = 1 / 3 ∧
    |calculateWeights (consistentMatrix ![(1 : ℝ), 2]) 0
      - normalizedColumnSum (consistentMatrix ![(1 : ℝ), 2]) 0| ≤ 1 / 1000000 ∧
    (2 : ℝ) = ((2 : ℕ) : ℝ) := by
  have hwpos : ∀ i, (0 : ℝ) < ![(1 : ℝ), 2] i := by
    intro i
    fin_cases i <;> norm_num
  have h := consistent_matrix_methods_agree (by norm_num) ![(1 : ℝ), 2] hwpos
  have heg := h.2.2.2 2 (fun i => ![(1 : ℝ), 2] i / 3)
    ⟨by intro i; fin_cases i <;> norm_num,
     by norm_num [Fin.sum_univ_two],
     by
      intro i
      fin_cases i <;>
        norm_num [Fin.sum_univ_two, consistentMatrix]⟩
  refine ⟨?_, ?_, h.2.2.1 0, heg.1⟩
  · rw [h.1 0]
    norm_num [Fin.sum_univ_two]
  · rw [h.2.1 0]
    norm_num [Fin.sum_univ_two]

end RoomSelection
